import Mathlib

/-!
Verification of `src/trackingValidation.py` (ValidationPlotsComparison).

The script computes ratio histograms with propagated uncertainty
(`ValidPlotter.ratioHist` / `ValidPlotter._div`), binomial efficiencies
(`getEfficiency`), renders overlay + ratio plots (`ValidPlotter.plotHistos`),
and parses a small CLI (`__main__`).

Numeric model: numpy float arithmetic is embedded with exact semantics over an
extended rational type `QF` (finite rational, +inf, -inf, NaN); `np.sqrt`
results, which may be irrational, live in the extension `NF` that additionally
represents values of the form `a * sqrt b` exactly.  Rounding is ignored: every
fact proved below (zero / nonzero / NaN / infinity structure, and equalities of
syntactically identical computations) is invariant under the exact-vs-rounded
distinction.
-/

namespace TrackingValidation

/-- Extended rational modelling a numpy float64 value: a finite rational,
positive infinity, negative infinity, or NaN. -/
inductive QF where
  | fin (q : ℚ)
  | inf
  | ninf
  | nan
deriving DecidableEq, Repr

/-- Embedding of `ValidPlotter._div` (lines 36-40): numpy elementwise division
with `errstate(divide='ignore', invalid='ignore')`.  No exception is ever
raised; IEEE-754 semantics give `x/0 = +-inf` for nonzero `x`, `0/0 = NaN`. -/
def QF.div : QF → QF → QF
  | QF.nan, _ => QF.nan
  | _, QF.nan => QF.nan
  | QF.fin a, QF.fin b =>
      if b = 0 then
        (if 0 < a then QF.inf else if a < 0 then QF.ninf else QF.nan)
      else QF.fin (a / b)
  | QF.fin _, QF.inf => QF.fin 0
  | QF.fin _, QF.ninf => QF.fin 0
  | QF.inf, QF.fin b => if 0 ≤ b then QF.inf else QF.ninf
  | QF.ninf, QF.fin b => if 0 ≤ b then QF.ninf else QF.inf
  | QF.inf, QF.inf => QF.nan
  | QF.inf, QF.ninf => QF.nan
  | QF.ninf, QF.inf => QF.nan
  | QF.ninf, QF.ninf => QF.nan

/-- IEEE-754 multiplication on extended rationals (used for `*=` and `**2`). -/
def QF.mul : QF → QF → QF
  | QF.nan, _ => QF.nan
  | _, QF.nan => QF.nan
  | QF.fin a, QF.fin b => QF.fin (a * b)
  | QF.inf, QF.fin b => if b = 0 then QF.nan else if 0 < b then QF.inf else QF.ninf
  | QF.fin a, QF.inf => if a = 0 then QF.nan else if 0 < a then QF.inf else QF.ninf
  | QF.ninf, QF.fin b => if b = 0 then QF.nan else if 0 < b then QF.ninf else QF.inf
  | QF.fin a, QF.ninf => if a = 0 then QF.nan else if 0 < a then QF.ninf else QF.inf
  | QF.inf, QF.inf => QF.inf
  | QF.inf, QF.ninf => QF.ninf
  | QF.ninf, QF.inf => QF.ninf
  | QF.ninf, QF.ninf => QF.inf

/-- IEEE-754 addition on extended rationals (used for `+` and `sum`). -/
def QF.add : QF → QF → QF
  | QF.nan, _ => QF.nan
  | _, QF.nan => QF.nan
  | QF.fin a, QF.fin b => QF.fin (a + b)
  | QF.inf, QF.fin _ => QF.inf
  | QF.fin _, QF.inf => QF.inf
  | QF.ninf, QF.fin _ => QF.ninf
  | QF.fin _, QF.ninf => QF.ninf
  | QF.inf, QF.inf => QF.inf
  | QF.inf, QF.ninf => QF.nan
  | QF.ninf, QF.inf => QF.nan
  | QF.ninf, QF.ninf => QF.ninf

/-- Embedding of `np.abs` on extended rationals. -/
def QF.abs : QF → QF
  | QF.fin a => QF.fin |a|
  | QF.inf => QF.inf
  | QF.ninf => QF.inf
  | QF.nan => QF.nan

/-- Embedding of `** 2` (numpy elementwise square). -/
def QF.sq (x : QF) : QF := QF.mul x x

/-- Embedding of Python `float(sum(...))` over an array of values: left fold of
IEEE addition starting from `0`. -/
def sumQF (l : List QF) : QF := l.foldl QF.add (QF.fin 0)

/-- Value domain for the result of multiplying by `np.sqrt`: a finite rational,
an exact irrational value `a * sqrt b` (`rt a b`), an infinity, or NaN. -/
inductive NF where
  | fin (q : ℚ)
  | rt (a b : ℚ)
  | inf
  | ninf
  | nan
deriving DecidableEq, Repr

/-- Integer square root by bounded search: `some t` with `t * t = n` when `n`
is a perfect square, `none` otherwise. -/
def intSqrt (n : Nat) : Option Nat :=
  (List.range (n + 1)).find? (fun t => t * t == n)

/-- Exact rational square root: `ratSqrt q = some s` iff `q` is a square of a
rational, in which case `s * s = q` and `0 ≤ s` (intended for `q > 0`); uses
`sqrt (n / d) = sqrt (n * d) / d`. -/
def ratSqrt (q : ℚ) : Option ℚ :=
  match intSqrt (q.num.toNat * q.den) with
  | some t => some ((t : ℚ) / (q.den : ℚ))
  | none => none

/-- Normalised construction of the exact value `a * sqrt q` (for `q ≥ 0`):
collapses to a finite rational when possible, so that `NF.fin 0` is the unique
representation of zero produced by the embedding. -/
def mkRt (a q : ℚ) : NF :=
  if q < 0 then NF.nan
  else if a = 0 ∨ q = 0 then NF.fin 0
  else
    match ratSqrt q with
    | some s => NF.fin (a * s)
    | none => NF.rt a q

/-- Embedding of `c * np.sqrt b` for extended rationals `c`, `b` (line 49 of the
source combines the line-48 value with the square root factor this way):
IEEE semantics for NaN, negative radicands, infinities and `0 * inf`. -/
def mulSqrt : QF → QF → NF
  | QF.nan, _ => NF.nan
  | _, QF.nan => NF.nan
  | _, QF.ninf => NF.nan
  | QF.fin a, QF.inf => if a = 0 then NF.nan else if 0 < a then NF.inf else NF.ninf
  | QF.inf, QF.inf => NF.inf
  | QF.ninf, QF.inf => NF.ninf
  | QF.fin a, QF.fin q => if q < 0 then NF.nan else mkRt a q
  | QF.inf, QF.fin q => if q < 0 then NF.nan else if q = 0 then NF.nan else NF.inf
  | QF.ninf, QF.fin q => if q < 0 then NF.nan else if q = 0 then NF.nan else NF.ninf

example : QF.div (QF.fin 0) (QF.fin 0) = QF.nan := by norm_num [QF.div]
example : QF.div (QF.fin 1) (QF.fin 0) = QF.inf := by norm_num [QF.div]
example : QF.div (QF.fin 4) (QF.fin 2) = QF.fin 2 := by norm_num [QF.div]
lemma intSqrt_two : intSqrt 2 = none := by decide

lemma intSqrt_four : intSqrt 4 = some 2 := by decide

lemma ratSqrt_two : ratSqrt (2 : ℚ) = none := by
  norm_num [ratSqrt]
  decide

lemma ratSqrt_four : ratSqrt (4 : ℚ) = some 2 := by
  norm_num [ratSqrt]
  decide

example : mulSqrt (QF.fin 1) (QF.fin 2) = NF.rt 1 2 := by
  norm_num [mulSqrt, mkRt, ratSqrt_two]
example : mulSqrt (QF.fin 2) (QF.fin 4) = NF.fin 4 := by
  norm_num [mulSqrt, mkRt, ratSqrt_four]
example : mulSqrt (QF.fin 0) QF.inf = NF.nan := by norm_num [mulSqrt]

/-- Input histogram (as loaded from a DQM file): per-bin values, per-bin
variances, and the bin-edge array of its first axis. -/
structure QHist where
  values : List QF
  variances : List QF
  edges : List ℚ
deriving DecidableEq, Repr

/-- Histogram produced by `ratioHist`: the variances carry the exact value of
`abs(ratio) * sqrt(...)`, which may be irrational, so they live in `NF`. -/
structure RHist where
  values : List QF
  variances : List NF
  edges : List ℚ
deriving DecidableEq, Repr

/-- Embedding of `ValidPlotter.ratioHist` (lines 42-51).  `hratio = num.copy()`
keeps `num`'s axes; `values()[:]` and `variances()[:]` are then overwritten
elementwise:
line 47 sets the values to `_div(upvals, dovals)`;
line 48 sets the variances to `abs(_div(upvals, dovals))`;
line 49 multiplies them by `sqrt(_div(upvars, upvals)^2 + _div(dovars, dovals)^2)`. -/
def ratioHist (num den : QHist) : RHist :=
  let upvals := num.values
  let upvars := num.variances
  let dovals := den.values
  let dovars := den.variances
  let vals := List.zipWith QF.div upvals dovals
  let var48 := (List.zipWith QF.div upvals dovals).map QF.abs
  let radic := List.zipWith QF.add
      (List.zipWith (fun uv u => QF.sq (QF.div uv u)) upvars upvals)
      (List.zipWith (fun dv d => QF.sq (QF.div dv d)) dovars dovals)
  { values := vals
    variances := List.zipWith mulSqrt var48 radic
    edges := num.edges }

/-- Modelled from the spec (section 4.1): division with every
division-by-zero term treated as zero.  Used only by `specRatioVariances`,
the specification-side formula that claim C4 compares against the code. -/
def zdiv (a b : QF) : QF :=
  if b = QF.fin 0 then QF.fin 0 else QF.div a b

/-- Modelled from the spec (section 4.1): bin variances are "the ratio's
absolute value scaled by the quadrature-combined relative uncertainties of
numerator and denominator (again treating division-by-zero terms as zero)". -/
def specRatioVariances (num den : QHist) : List NF :=
  List.zipWith mulSqrt
    ((List.zipWith zdiv num.values den.values).map QF.abs)
    (List.zipWith QF.add
      (List.zipWith (fun uv u => QF.sq (zdiv uv u)) num.variances num.values)
      (List.zipWith (fun dv d => QF.sq (zdiv dv d)) den.variances den.values))

/-- Observable outcome of one `ValidPlotter.plotHistos` call (lines 53-112):
whether the all-empty early return fired, the message it prints, the ratio
curves drawn on the secondary panel (legend label and data), the dashed
reference line (y, xmin, xmax), and the files passed to `savefig`. -/
structure PlotResult where
  skipped : Bool
  logMsg : Option String
  ratioCurves : List (String × RHist)
  refLine : Option (ℚ × ℚ × ℚ)
  savedFiles : List String
deriving DecidableEq, Repr

/-- Embedding of `ValidPlotter.plotHistos`.  The skip test (line 62) is
`all(float(sum(h.values())) == 0.0 for h in v_h)`; the ratio loop (lines 86-89)
draws `ratioHist(reference_hist, h)` for each `h` in `v_h[1:]` with legend
label `v_label[idx] + "/" + v_label[0]`; the reference line (line 99) is drawn
only when `len(v_h) > 1`, at `y = 1` spanning the edges of the last `hratio`;
the save loop (lines 111-112) iterates over `('.png', '.pdf')` but saves
`savename + ".png"` both times (`ext` is unused). -/
def plotHistos (savedir : String) (v_h : List QHist) (savename : String)
    (v_label : List String) : PlotResult :=
  if v_h.all (fun h => sumQF h.values == QF.fin 0) then
    { skipped := true
      logMsg := some ("All histograms in " ++ savename ++ " are empty. Skipping plot.")
      ratioCurves := []
      refLine := none
      savedFiles := [] }
  else
    let reference_hist := v_h.headD ⟨[], [], []⟩
    let curves := List.zipWith
      (fun h lab => (lab ++ "/" ++ v_label.headD "", ratioHist reference_hist h))
      (v_h.drop 1) (v_label.drop 1)
    let refLine :=
      if v_h.length > 1 then
        let hratio := ratioHist reference_hist ((v_h.drop 1).getLastD ⟨[], [], []⟩)
        some ((1 : ℚ), hratio.edges.headD 0, hratio.edges.getLastD 0)
      else none
    { skipped := false
      logMsg := none
      ratioCurves := curves
      refLine := refLine
      savedFiles := [".png", ".pdf"].map (fun _ext => savedir ++ (savename ++ ".png")) }

/-- Embedding of `ValidPlotter.__init__` (lines 30-34): the save directory is
`odir` when truthy, else `cwd + "/Plots_" + tag + "/"`; `makedir` then creates
it if absent. -/
def savedirOf (tag : String) (odir : Option String) (cwd : String) : String :=
  match odir with
  | some d => if d = "" then cwd ++ "/Plots_" ++ tag ++ "/" else d
  | none => cwd ++ "/Plots_" ++ tag ++ "/"

/-- Embedding of `getEfficiency`'s loop body (lines 118-128).  The module never
imports `scipy.stats.binomtest`, so the `yTot > 0` branch evaluates the
undefined name `binomtest` and raises `NameError`; the `else` branch appends
`0` to all three accumulators. -/
def getEfficiencyGo : List (ℚ × ℚ) → Except String (List ℚ × List ℚ × List ℚ)
  | [] => Except.ok ([], [], [])
  | (_yPass, yTot) :: rest =>
    if yTot > 0 then
      Except.error "NameError: name binomtest is not defined"
    else
      match getEfficiencyGo rest with
      | Except.error e => Except.error e
      | Except.ok (effs, lows, ups) => Except.ok (0 :: effs, 0 :: lows, 0 :: ups)

/-- Embedding of `getEfficiency` (lines 114-129): iterate over
`zip(passing, total)` accumulating `yEff`, `yEffErrLow`, `yEffErrUp`. -/
def getEfficiency (passing total : List ℚ) : Except String (List ℚ × List ℚ × List ℚ) :=
  getEfficiencyGo (passing.zip total)

/-- Embedding of the `--files` / `--labels` comma splitting (lines 314-318):
`split(',')` when a comma is present, else a one-element list.  Splitting is
modelled on the character sequence (Python `str.split(',')` keeps empty
pieces, as does `List.splitOn`). -/
def splitComma (s : String) : List String :=
  if (',' : Char) ∈ s.data then (s.data.splitOn ',').map (fun cs => String.mk cs)
  else [s]

/-- Embedding of the default labels (line 320): `File_<index>` per file. -/
def defaultLabels (n : Nat) : List String :=
  (List.range n).map (fun i => "File_" ++ toString i)

/-- Embedding of label resolution (lines 316-320): `if args.labels:` is Python
truthiness, so a missing or empty `--labels` falls back to the defaults. -/
def labelsOf (labelsArg : Option String) (nfiles : Nat) : List String :=
  match labelsArg with
  | some l => if l = "" then defaultLabels nfiles else splitComma l
  | none => defaultLabels nfiles

/-- Embedding of the `__main__` argument intake (lines 314-322), up to and
including the `assert len(files) == len(labels)`. -/
def parseArgs (filesArg : String) (labelsArg : Option String) :
    Except String (List String × List String) :=
  let files := splitComma filesArg
  let labels := labelsOf labelsArg files.length
  if files.length = labels.length then Except.ok (files, labels)
  else Except.error "Number of files and labels must match."

/-- A histogram object as a pair of references into a heap of numpy buffers
(one buffer for the bin values, one for the bin variances). -/
structure HistRef where
  valsIdx : Nat
  varsIdx : Nat
deriving DecidableEq, Repr

/-- Heap-level embedding of `ValidPlotter.ratioHist` (lines 42-51), making the
buffer discipline explicit: `num.copy()` allocates two fresh buffers copying
the numerator's, and every `[:]` slice assignment writes only to the copy's
buffers.  `sqrtF` is the (arbitrary) float square-root function of the
platform; the frame property holds for every choice of it. -/
def ratioHistHeap (sqrtF : QF → QF) (heap : List (List QF)) (num den : HistRef) :
    List (List QF) × HistRef :=
  let upvals := heap.getD num.valsIdx []
  let upvars := heap.getD num.varsIdx []
  let dovals := heap.getD den.valsIdx []
  let dovars := heap.getD den.varsIdx []
  let hratio : HistRef := ⟨heap.length, heap.length + 1⟩
  let heap1 := heap ++ [upvals, upvars]
  let heap2 := heap1.set hratio.valsIdx (List.zipWith QF.div upvals dovals)
  let heap3 := heap2.set hratio.varsIdx ((List.zipWith QF.div upvals dovals).map QF.abs)
  let radic := List.zipWith QF.add
      (List.zipWith (fun uv u => QF.sq (QF.div uv u)) upvars upvals)
      (List.zipWith (fun dv d => QF.sq (QF.div dv d)) dovars dovals)
  let heap4 := heap3.set hratio.varsIdx
      (List.zipWith QF.mul (heap3.getD hratio.varsIdx []) (radic.map sqrtF))
  (heap4, hratio)

/-- C10: `ratioHist` leaves both of its arguments unchanged: every buffer that
existed before the call (in particular the value and variance buffers of the
numerator and of the denominator) holds the same contents afterwards, and the
returned histogram is built on the two freshly allocated copy buffers. -/
theorem ratioHistHeap_preserves_arguments (sqrtF : QF → QF) (heap : List (List QF))
    (num den : HistRef) (k : Nat) (hk : k < heap.length) :
    ((ratioHistHeap sqrtF heap num den).1).getD k [] = heap.getD k [] ∧
    (ratioHistHeap sqrtF heap num den).2 = ⟨heap.length, heap.length + 1⟩ := by
  unfold ratioHistHeap
  refine ⟨?_, rfl⟩
  dsimp only
  rw [List.getD_eq_getElem?_getD, List.getElem?_set_ne (by omega),
    List.getElem?_set_ne (by omega), List.getElem?_set_ne (by omega),
    List.getElem?_append_left hk, ← List.getD_eq_getElem?_getD]

/-- Witness for `ratioHistHeap_preserves_arguments` at a concrete heap. -/
theorem ratioHistHeap_preserves_arguments_witness :
    ((ratioHistHeap (fun x => x) [[QF.fin 1]] ⟨0, 0⟩ ⟨0, 0⟩).1).getD 0 [] = [QF.fin 1] :=
  (ratioHistHeap_preserves_arguments (fun x => x) [[QF.fin 1]] ⟨0, 0⟩ ⟨0, 0⟩ 0
    (by decide)).1

lemma getD_zipWith {α β γ : Type} (f : α → β → γ) (l1 : List α) (l2 : List β)
    (i : Nat) (d1 : α) (d2 : β) (d : γ) (h1 : i < l1.length) (h2 : i < l2.length) :
    (List.zipWith f l1 l2).getD i d = f (l1.getD i d1) (l2.getD i d2) := by
  induction l1 generalizing l2 i with
  | nil => simp at h1
  | cons a l ih =>
    cases l2 with
    | nil => simp at h2
    | cons b m =>
      cases i with
      | zero => rfl
      | succ n =>
        simpa using ih m n (by simpa using h1) (by simpa using h2)

lemma getD_map {α β : Type} (f : α → β) (l : List α) (i : Nat) (d1 : α) (d : β)
    (h : i < l.length) : (l.map f).getD i d = f (l.getD i d1) := by
  induction l generalizing i with
  | nil => simp at h
  | cons a l ih =>
    cases i with
    | zero => rfl
    | succ n => simpa using ih n (by simpa using h)

/-- C1: the spec claims `getEfficiency` computes a binomial point estimate with
a 0.683 confidence interval for every bin with `total > 0`.  The module never
imports `scipy.stats.binomtest`, so reaching that branch raises `NameError`
instead: nothing is computed for any such bin. -/
theorem getEfficiency_missing_binomtest :
    getEfficiency [1] [2] = Except.error "NameError: name binomtest is not defined" := by
  norm_num [getEfficiency, getEfficiencyGo]

/-- C5: the spec claims every `total == 0` bin yields `0` for the estimate and
both bounds.  That holds only when no bin of the call has `total > 0`: with a
mixed input the `NameError` from the missing `binomtest` import aborts the call
before anything is returned for the `total == 0` bin. -/
theorem getEfficiency_zero_total_bins :
    getEfficiency [1, 0] [2, 0] = Except.error "NameError: name binomtest is not defined" ∧
    getEfficiency [0, 0] [0, 0] = Except.ok ([0, 0], [0, 0], [0, 0]) := by
  constructor <;> norm_num [getEfficiency, getEfficiencyGo]

/-- C9: parsed file and label counts are compared by
`assert len(files) == len(labels)`: a mismatch terminates the process, and an
omitted `--labels` defaults to one `File_<index>` label per file, so the
assertion passes. -/
theorem parseArgs_label_count (fs : String) (ls : Option String) (n : Nat) :
    ((splitComma fs).length ≠ (labelsOf ls (splitComma fs).length).length →
      parseArgs fs ls = Except.error "Number of files and labels must match.") ∧
    (labelsOf none n).length = n ∧
    parseArgs fs none = Except.ok (splitComma fs, defaultLabels (splitComma fs).length) := by
  refine ⟨fun h => ?_, ?_, ?_⟩
  · unfold parseArgs
    rw [if_neg h]
  · simp [labelsOf, defaultLabels]
  · unfold parseArgs
    rw [if_pos (by simp [labelsOf, defaultLabels])]
    rfl

/-- Witness for `parseArgs_label_count`: two files with one label abort; two
files with no labels succeed with default labels. -/
theorem parseArgs_label_count_witness :
    parseArgs "a,b" (some "x") = Except.error "Number of files and labels must match." ∧
    parseArgs "a,b" none = Except.ok (splitComma "a,b", defaultLabels (splitComma "a,b").length) :=
  ⟨(parseArgs_label_count "a,b" (some "x") 0).1 (by decide),
   (parseArgs_label_count "a,b" none 0).2.2⟩

/-- C7: when the sum of bin values of every input histogram is zero the call
returns early after logging a skip message, and no file is saved. -/
theorem plotHistos_all_empty_skips (savedir savename : String) (v_h : List QHist)
    (v_label : List String) (h : ∀ hh ∈ v_h, sumQF hh.values = QF.fin 0) :
    (plotHistos savedir v_h savename v_label).skipped = true ∧
    (plotHistos savedir v_h savename v_label).savedFiles = [] ∧
    (plotHistos savedir v_h savename v_label).logMsg =
      some ("All histograms in " ++ savename ++ " are empty. Skipping plot.") := by
  have hall : v_h.all (fun hh => sumQF hh.values == QF.fin 0) = true := by
    rw [List.all_eq_true]
    intro x hx
    exact beq_iff_eq.mpr (h x hx)
  unfold plotHistos
  rw [if_pos hall]
  exact ⟨rfl, rfl, rfl⟩

/-- Witness for `plotHistos_all_empty_skips` on one all-zero histogram. -/
theorem plotHistos_all_empty_skips_witness :
    (plotHistos "d/" [⟨[QF.fin 0, QF.fin 0], [QF.fin 1], [0, 1, 2]⟩] "x" ["A"]).skipped
      = true :=
  (plotHistos_all_empty_skips "d/" "x" [⟨[QF.fin 0, QF.fin 0], [QF.fin 1], [0, 1, 2]⟩]
    ["A"] (by
      intro hh hmem
      rw [List.mem_singleton] at hmem
      subst hmem
      norm_num [sumQF, QF.add])).1

lemma plotHistos_not_skipped_files (savedir savename : String) (v_h : List QHist)
    (v_label : List String)
    (h : v_h.all (fun hh => sumQF hh.values == QF.fin 0) = false) :
    (plotHistos savedir v_h savename v_label).savedFiles =
      [savedir ++ (savename ++ ".png"), savedir ++ (savename ++ ".png")] := by
  unfold plotHistos
  rw [if_neg (by simp [h])]
  rfl

/-- C8: the save loop iterates over `('.png', '.pdf')` but never uses the loop
variable: a non-skipped call writes `<savedir><savename>.png` twice and never
writes a PDF.  With `odir` unset the directory is `<cwd>/Plots_<tag>/` as the
spec says (with `odir` set it is `odir` itself, with no `Plots_<tag>` suffix). -/
theorem plotHistos_saves_png_twice_never_pdf :
    savedirOf "t" none "/w" = "/w/Plots_t/" ∧
    (plotHistos "/w/Plots_t/" [⟨[QF.fin 1], [QF.fin 1], [0, 1]⟩] "h" ["A"]).savedFiles =
      ["/w/Plots_t/h.png", "/w/Plots_t/h.png"] ∧
    "/w/Plots_t/h.pdf" ∉
      (plotHistos "/w/Plots_t/" [⟨[QF.fin 1], [QF.fin 1], [0, 1]⟩] "h" ["A"]).savedFiles := by
  have hne : ([⟨[QF.fin 1], [QF.fin 1], [0, 1]⟩] : List QHist).all
      (fun hh => sumQF hh.values == QF.fin 0) = false := by
    norm_num [sumQF, QF.add]
  refine ⟨rfl, ?_, ?_⟩
  · rw [plotHistos_not_skipped_files _ _ _ _ hne]
    decide
  · rw [plotHistos_not_skipped_files _ _ _ _ hne]
    decide

lemma plotHistos_not_skipped (savedir savename : String) (v_h : List QHist)
    (v_label : List String)
    (h : v_h.all (fun hh => sumQF hh.values == QF.fin 0) = false) :
    plotHistos savedir v_h savename v_label =
      { skipped := false
        logMsg := none
        ratioCurves := List.zipWith
          (fun hh lab => (lab ++ "/" ++ v_label.headD "", ratioHist (v_h.headD ⟨[], [], []⟩) hh))
          (v_h.drop 1) (v_label.drop 1)
        refLine := if v_h.length > 1 then
            some ((1 : ℚ),
              (ratioHist (v_h.headD ⟨[], [], []⟩) ((v_h.drop 1).getLastD ⟨[], [], []⟩)).edges.headD 0,
              (ratioHist (v_h.headD ⟨[], [], []⟩) ((v_h.drop 1).getLastD ⟨[], [], []⟩)).edges.getLastD 0)
          else none
        savedFiles := [savedir ++ (savename ++ ".png"), savedir ++ (savename ++ ".png")] } := by
  unfold plotHistos
  rw [if_neg (by simp [h])]
  rfl

/-- Two concrete one-bin histograms used to exhibit the ratio-direction slip. -/
def histA : QHist := ⟨[QF.fin 2], [QF.fin 0], [0, 1]⟩

/-- Second concrete histogram, with double the bin value of `histA`. -/
def histB : QHist := ⟨[QF.fin 4], [QF.fin 0], [0, 1]⟩

lemma ratioHist_histA_histB :
    ratioHist histA histB = ⟨[QF.fin (1 / 2)], [NF.fin 0], [0, 1]⟩ := by
  norm_num [ratioHist, histA, histB, QF.div, QF.abs, QF.sq, QF.mul, QF.add, mulSqrt, mkRt]

lemma ratioHist_histB_histA :
    ratioHist histB histA = ⟨[QF.fin 2], [NF.fin 0], [0, 1]⟩ := by
  norm_num [ratioHist, histA, histB, QF.div, QF.abs, QF.sq, QF.mul, QF.add, mulSqrt, mkRt]

/-- C6: the secondary panel exists exactly when more than one histogram is
given (no ratio curves or reference line for a single histogram, two curves
for three histograms, reference line at y = 1 spanning the bin edges), but the
curve drawn for a non-reference histogram `h` is `ratioHist(reference, h)` —
the FIRST histogram divided by `h` — while its own legend label (and the spec)
say `h / reference`: on values 2 and 4 the drawn curve is 1/2 where the
labelled ratio `B/A` is 2. -/
theorem plotHistos_ratio_uses_reference_as_numerator :
    (plotHistos "" [histA, histB] "h" ["A", "B"]).ratioCurves =
      [("B/A", ratioHist histA histB)] ∧
    (ratioHist histA histB).values = [QF.fin (1 / 2)] ∧
    (ratioHist histB histA).values = [QF.fin 2] ∧
    (plotHistos "" [histA] "h" ["A"]).ratioCurves = [] ∧
    (plotHistos "" [histA] "h" ["A"]).refLine = none ∧
    (plotHistos "" [histA, histB, histA] "h" ["A", "B", "C"]).ratioCurves.length = 2 ∧
    (plotHistos "" [histA, histB] "h" ["A", "B"]).refLine = some (1, 0, 1) := by
  have h1 : ([histA] : List QHist).all (fun hh => sumQF hh.values == QF.fin 0) = false := by
    norm_num [histA, sumQF, QF.add]
  have h2 : ([histA, histB] : List QHist).all
      (fun hh => sumQF hh.values == QF.fin 0) = false := by
    norm_num [histA, histB, sumQF, QF.add]
  have h3 : ([histA, histB, histA] : List QHist).all
      (fun hh => sumQF hh.values == QF.fin 0) = false := by
    norm_num [histA, histB, sumQF, QF.add]
  refine ⟨?_, ?_, ?_, ?_, ?_, ?_, ?_⟩
  · rw [plotHistos_not_skipped _ _ _ _ h2]
    rfl
  · rw [ratioHist_histA_histB]
  · rw [ratioHist_histB_histA]
  · rw [plotHistos_not_skipped _ _ _ _ h1]
    rfl
  · rw [plotHistos_not_skipped _ _ _ _ h1]
    rfl
  · rw [plotHistos_not_skipped _ _ _ _ h3]
    rfl
  · rw [plotHistos_not_skipped _ _ _ _ h2]
    rfl

/-- C2: `ratioHist` never raises on a zero-valued denominator bin (the
embedding of `_div` is total), but the resulting bin value is not 0: it is
`+inf`/`-inf` for a positive/negative numerator value and NaN for a
zero-or-NaN numerator value. -/
theorem ratioHist_zero_denominator (num den : QHist) (i : Nat)
    (h1 : i < num.values.length) (h2 : i < den.values.length)
    (hd : den.values.getD i QF.nan = QF.fin 0) :
    (ratioHist num den).values.getD i QF.nan =
      (match num.values.getD i QF.nan with
       | QF.fin a => if 0 < a then QF.inf else if a < 0 then QF.ninf else QF.nan
       | QF.inf => QF.inf
       | QF.ninf => QF.ninf
       | QF.nan => QF.nan) := by
  have hv : (ratioHist num den).values = List.zipWith QF.div num.values den.values := rfl
  rw [hv, getD_zipWith QF.div num.values den.values i QF.nan QF.nan QF.nan h1 h2, hd]
  cases hnum : num.values.getD i QF.nan <;> norm_num [QF.div]

/-- Witness for `ratioHist_zero_denominator`: numerator value 1 over
denominator value 0 yields `+inf`. -/
theorem ratioHist_zero_denominator_witness :
    (ratioHist ⟨[QF.fin 1], [QF.fin 0], []⟩ ⟨[QF.fin 0], [QF.fin 0], []⟩).values.getD 0 QF.nan
      = QF.inf := by
  have h := ratioHist_zero_denominator ⟨[QF.fin 1], [QF.fin 0], []⟩
    ⟨[QF.fin 0], [QF.fin 0], []⟩ 0 (by decide) (by decide) (by decide)
  norm_num at h
  exact h

/-- Counterexample to C2 as stated: a zero-over-zero bin produces NaN, not 0. -/
theorem ratioHist_zero_over_zero_is_nan :
    (ratioHist ⟨[QF.fin 0], [QF.fin 0], []⟩ ⟨[QF.fin 0], [QF.fin 0], []⟩).values = [QF.nan] ∧
    QF.nan ≠ QF.fin 0 := by
  constructor
  · norm_num [ratioHist, QF.div]
  · simp

lemma intSqrt_spec (n t : Nat) (h : intSqrt n = some t) : t * t = n := by
  unfold intSqrt at h
  have := List.find?_some h
  simpa using this

lemma ratSqrt_ne_zero (q : ℚ) (hq : 0 < q) (s : ℚ) (hs : ratSqrt q = some s) :
    s ≠ 0 := by
  unfold ratSqrt at hs
  cases ht : intSqrt (q.num.toNat * q.den) with
  | none => rw [ht] at hs; exact absurd hs (by simp)
  | some t =>
    rw [ht] at hs
    have htt : t * t = q.num.toNat * q.den := intSqrt_spec _ _ ht
    have hnum : 0 < q.num := Rat.num_pos.mpr hq
    have hn : 0 < q.num.toNat := by omega
    have hd : 0 < q.den := q.den_pos
    have htpos : 0 < t := by
      rcases Nat.eq_zero_or_pos t with h0 | h0
      · rw [h0] at htt
        have : 0 < q.num.toNat * q.den := Nat.mul_pos hn hd
        omega
      · exact h0
    have hseq : ((t : ℚ) / (q.den : ℚ)) = s := by
      exact Option.some.inj hs
    rw [← hseq]
    exact div_ne_zero (Nat.cast_ne_zero.mpr (by omega)) (Nat.cast_ne_zero.mpr (by omega))

lemma mkRt_eq_fin_zero_iff (a q : ℚ) (hq : 0 ≤ q) :
    (mkRt a q = NF.fin 0) ↔ (a = 0 ∨ q = 0) := by
  unfold mkRt
  rw [if_neg (not_lt.mpr hq)]
  by_cases hz : a = 0 ∨ q = 0
  · rw [if_pos hz]
    simpa using hz
  · rw [if_neg hz]
    push_neg at hz
    obtain ⟨ha, hq0⟩ := hz
    have hqpos : 0 < q := lt_of_le_of_ne hq (Ne.symm hq0)
    cases hs : ratSqrt q with
    | none => simp [ha, hq0]
    | some s =>
      have hsne : s ≠ 0 := ratSqrt_ne_zero q hqpos s hs
      simp [mul_ne_zero ha hsne, ha, hq0]

lemma zdiv_eq_div (b : QF) (h : b ≠ QF.fin 0) (a : QF) : zdiv a b = QF.div a b := by
  unfold zdiv
  rw [if_neg h]

/-- C3: `ratioHist h h` has bin value 1 at every bin whose (finite) value is
nonzero, but the bin variance there is `sqrt(2) * |variance/value|`, which
vanishes only when the bin variance of `h` is itself zero — not everywhere, as
the spec claims. -/
theorem ratioHist_self (h : QHist) (i : Nat) (q : ℚ)
    (hlen : h.variances.length = h.values.length) (hi : i < h.values.length)
    (hv : h.values.getD i QF.nan = QF.fin q) (hq : q ≠ 0) :
    (ratioHist h h).values.getD i QF.nan = QF.fin 1 ∧
    ((ratioHist h h).variances.getD i NF.nan = NF.fin 0 ↔
      h.variances.getD i QF.nan = QF.fin 0) := by
  have hivar : i < h.variances.length := by omega
  have hdiv : QF.div (QF.fin q) (QF.fin q) = QF.fin 1 := by
    simp only [QF.div]
    rw [if_neg hq, div_self hq]
  have hb0 : i < (List.zipWith QF.div h.values h.values).length := by
    simp only [List.length_zipWith]
    omega
  have habs : ((List.zipWith QF.div h.values h.values).map QF.abs).getD i QF.nan
      = QF.fin 1 := by
    rw [getD_map QF.abs _ i QF.nan QF.nan hb0,
      getD_zipWith QF.div h.values h.values i QF.nan QF.nan QF.nan hi hi, hv, hdiv]
    norm_num [QF.abs]
  have hbX : i < (List.zipWith (fun uv u => QF.sq (QF.div uv u))
      h.variances h.values).length := by
    simp only [List.length_zipWith]
    omega
  have hX : (List.zipWith (fun uv u => QF.sq (QF.div uv u)) h.variances h.values).getD
      i QF.nan = QF.sq (QF.div (h.variances.getD i QF.nan) (QF.fin q)) := by
    rw [getD_zipWith (fun uv u => QF.sq (QF.div uv u)) h.variances h.values i
      QF.nan QF.nan QF.nan hivar hi, hv]
  have hbR : i < (List.zipWith QF.add
      (List.zipWith (fun uv u => QF.sq (QF.div uv u)) h.variances h.values)
      (List.zipWith (fun uv u => QF.sq (QF.div uv u)) h.variances h.values)).length := by
    simp only [List.length_zipWith]
    omega
  have hbabs : i < ((List.zipWith QF.div h.values h.values).map QF.abs).length := by
    simpa using hb0
  have hgoalvar : (ratioHist h h).variances.getD i NF.nan =
      mulSqrt (QF.fin 1)
        (QF.add (QF.sq (QF.div (h.variances.getD i QF.nan) (QF.fin q)))
          (QF.sq (QF.div (h.variances.getD i QF.nan) (QF.fin q)))) := by
    rw [show (ratioHist h h).variances =
        List.zipWith mulSqrt ((List.zipWith QF.div h.values h.values).map QF.abs)
          (List.zipWith QF.add
            (List.zipWith (fun uv u => QF.sq (QF.div uv u)) h.variances h.values)
            (List.zipWith (fun uv u => QF.sq (QF.div uv u)) h.variances h.values)) from rfl,
      getD_zipWith mulSqrt _ _ i QF.nan QF.nan NF.nan hbabs hbR, habs,
      getD_zipWith QF.add _ _ i QF.nan QF.nan QF.nan hbX hbX, hX]
  refine ⟨?_, ?_⟩
  · rw [show (ratioHist h h).values = List.zipWith QF.div h.values h.values from rfl,
      getD_zipWith QF.div h.values h.values i QF.nan QF.nan QF.nan hi hi, hv, hdiv]
  · rw [hgoalvar]
    cases hw : h.variances.getD i QF.nan with
    | fin v =>
      have hdv : QF.div (QF.fin v) (QF.fin q) = QF.fin (v / q) := by
        simp only [QF.div]
        rw [if_neg hq]
      rw [hdv]
      have hsq : QF.sq (QF.fin (v / q)) = QF.fin ((v / q) * (v / q)) := rfl
      rw [hsq]
      have hadd : QF.add (QF.fin ((v / q) * (v / q))) (QF.fin ((v / q) * (v / q)))
          = QF.fin ((v / q) * (v / q) + (v / q) * (v / q)) := rfl
      rw [hadd]
      have hs0 : (0 : ℚ) ≤ (v / q) * (v / q) + (v / q) * (v / q) := by
        have := mul_self_nonneg (v / q)
        linarith
      have hms : mulSqrt (QF.fin 1) (QF.fin ((v / q) * (v / q) + (v / q) * (v / q)))
          = mkRt 1 ((v / q) * (v / q) + (v / q) * (v / q)) := by
        simp only [mulSqrt]
        rw [if_neg (not_lt.mpr hs0)]
      rw [hms, mkRt_eq_fin_zero_iff 1 _ hs0]
      constructor
      · rintro (h1 | hsz)
        · norm_num at h1
        · have ht : (v / q) * (v / q) = 0 := by
            linarith [mul_self_nonneg (v / q)]
          have hvq : v / q = 0 := mul_self_eq_zero.mp ht
          rcases div_eq_zero_iff.mp hvq with hv0 | hq0
          · simp [hv0]
          · exact absurd hq0 hq
      · intro hfin
        have hvz : v = 0 := by simpa using hfin
        right
        simp [hvz]
    | inf =>
      rcases le_or_lt 0 q with hq0 | hq0
      · simp [QF.div, QF.sq, QF.mul, QF.add, mulSqrt, hq0]
      · simp [QF.div, QF.sq, QF.mul, QF.add, mulSqrt, not_le.mpr hq0]
    | ninf =>
      rcases le_or_lt 0 q with hq0 | hq0
      · simp [QF.div, QF.sq, QF.mul, QF.add, mulSqrt, hq0]
      · simp [QF.div, QF.sq, QF.mul, QF.add, mulSqrt, not_le.mpr hq0]
    | nan =>
      simp [QF.div, QF.sq, QF.mul, QF.add, mulSqrt]

/-- Witness for `ratioHist_self` on a one-bin histogram with value 1 and
variance 1: the ratio value is 1 and the variance is nonzero on both sides of
the equivalence. -/
theorem ratioHist_self_witness :
    (ratioHist ⟨[QF.fin 1], [QF.fin 1], []⟩ ⟨[QF.fin 1], [QF.fin 1], []⟩).values.getD 0 QF.nan
      = QF.fin 1 ∧
    ((ratioHist ⟨[QF.fin 1], [QF.fin 1], []⟩ ⟨[QF.fin 1], [QF.fin 1], []⟩).variances.getD 0
        NF.nan = NF.fin 0 ↔
      (⟨[QF.fin 1], [QF.fin 1], []⟩ : QHist).variances.getD 0 QF.nan = QF.fin 0) :=
  ratioHist_self ⟨[QF.fin 1], [QF.fin 1], []⟩ 0 1 (by decide) (by decide) (by decide)
    (by norm_num)

/-- Counterexample to C3 as stated: on a one-bin histogram with value 1 and
variance 1 the self-ratio variance is `sqrt 2`, represented exactly as
`NF.rt 1 2`, which is not zero although the denominator bin value 1 is
nonzero. -/
theorem ratioHist_self_variance_nonzero :
    (ratioHist ⟨[QF.fin 1], [QF.fin 1], []⟩ ⟨[QF.fin 1], [QF.fin 1], []⟩).variances
      = [NF.rt 1 2] ∧
    NF.rt 1 2 ≠ NF.fin 0 ∧
    (ratioHist ⟨[QF.fin 1], [QF.fin 1], []⟩ ⟨[QF.fin 1], [QF.fin 1], []⟩).values
      = [QF.fin 1] ∧
    QF.fin (1 : ℚ) ≠ QF.fin 0 := by
  refine ⟨?_, by simp, ?_, by norm_num⟩
  · norm_num [ratioHist, QF.div, QF.abs, QF.sq, QF.mul, QF.add, mulSqrt, mkRt, ratSqrt_two]
  · norm_num [ratioHist, QF.div]

/-- C4: at every bin where both the numerator and the denominator bin value
are nonzero, the variances computed by `ratioHist` coincide with the spec's
formula (ratio's absolute value scaled by the quadrature-combined relative
uncertainties); where a division by zero occurs they do not (the code yields
NaN, the spec's zero convention yields 0). -/
theorem ratioHist_variances_match_spec (num den : QHist) (i : Nat)
    (h1 : i < num.values.length) (h2 : i < den.values.length)
    (h3 : i < num.variances.length) (h4 : i < den.variances.length)
    (hu : num.values.getD i QF.nan ≠ QF.fin 0)
    (hd : den.values.getD i QF.nan ≠ QF.fin 0) :
    (ratioHist num den).variances.getD i NF.nan =
      (specRatioVariances num den).getD i NF.nan := by
  have hbdiv : i < (List.zipWith QF.div num.values den.values).length := by
    simp only [List.length_zipWith]
    omega
  have hbzdiv : i < (List.zipWith zdiv num.values den.values).length := by
    simp only [List.length_zipWith]
    omega
  have hbX : i < (List.zipWith (fun uv u => QF.sq (QF.div uv u))
      num.variances num.values).length := by
    simp only [List.length_zipWith]
    omega
  have hbY : i < (List.zipWith (fun dv d => QF.sq (QF.div dv d))
      den.variances den.values).length := by
    simp only [List.length_zipWith]
    omega
  have hbXs : i < (List.zipWith (fun uv u => QF.sq (zdiv uv u))
      num.variances num.values).length := by
    simp only [List.length_zipWith]
    omega
  have hbYs : i < (List.zipWith (fun dv d => QF.sq (zdiv dv d))
      den.variances den.values).length := by
    simp only [List.length_zipWith]
    omega
  have hbR : i < (List.zipWith QF.add
      (List.zipWith (fun uv u => QF.sq (QF.div uv u)) num.variances num.values)
      (List.zipWith (fun dv d => QF.sq (QF.div dv d)) den.variances den.values)).length := by
    simp only [List.length_zipWith]
    omega
  have hbRs : i < (List.zipWith QF.add
      (List.zipWith (fun uv u => QF.sq (zdiv uv u)) num.variances num.values)
      (List.zipWith (fun dv d => QF.sq (zdiv dv d)) den.variances den.values)).length := by
    simp only [List.length_zipWith]
    omega
  have lhs : (ratioHist num den).variances.getD i NF.nan =
      mulSqrt (QF.abs (QF.div (num.values.getD i QF.nan) (den.values.getD i QF.nan)))
        (QF.add (QF.sq (QF.div (num.variances.getD i QF.nan) (num.values.getD i QF.nan)))
          (QF.sq (QF.div (den.variances.getD i QF.nan) (den.values.getD i QF.nan)))) := by
    rw [show (ratioHist num den).variances =
        List.zipWith mulSqrt ((List.zipWith QF.div num.values den.values).map QF.abs)
          (List.zipWith QF.add
            (List.zipWith (fun uv u => QF.sq (QF.div uv u)) num.variances num.values)
            (List.zipWith (fun dv d => QF.sq (QF.div dv d)) den.variances den.values))
        from rfl,
      getD_zipWith mulSqrt _ _ i QF.nan QF.nan NF.nan (by simpa using hbdiv) hbR,
      getD_map QF.abs _ i QF.nan QF.nan hbdiv,
      getD_zipWith QF.div num.values den.values i QF.nan QF.nan QF.nan h1 h2,
      getD_zipWith QF.add _ _ i QF.nan QF.nan QF.nan hbX hbY,
      getD_zipWith (fun uv u => QF.sq (QF.div uv u)) num.variances num.values i
        QF.nan QF.nan QF.nan h3 h1,
      getD_zipWith (fun dv d => QF.sq (QF.div dv d)) den.variances den.values i
        QF.nan QF.nan QF.nan h4 h2]
  have rhs : (specRatioVariances num den).getD i NF.nan =
      mulSqrt (QF.abs (zdiv (num.values.getD i QF.nan) (den.values.getD i QF.nan)))
        (QF.add (QF.sq (zdiv (num.variances.getD i QF.nan) (num.values.getD i QF.nan)))
          (QF.sq (zdiv (den.variances.getD i QF.nan) (den.values.getD i QF.nan)))) := by
    rw [show specRatioVariances num den =
        List.zipWith mulSqrt ((List.zipWith zdiv num.values den.values).map QF.abs)
          (List.zipWith QF.add
            (List.zipWith (fun uv u => QF.sq (zdiv uv u)) num.variances num.values)
            (List.zipWith (fun dv d => QF.sq (zdiv dv d)) den.variances den.values))
        from rfl,
      getD_zipWith mulSqrt _ _ i QF.nan QF.nan NF.nan (by simpa using hbzdiv) hbRs,
      getD_map QF.abs _ i QF.nan QF.nan hbzdiv,
      getD_zipWith zdiv num.values den.values i QF.nan QF.nan QF.nan h1 h2,
      getD_zipWith QF.add _ _ i QF.nan QF.nan QF.nan hbXs hbYs,
      getD_zipWith (fun uv u => QF.sq (zdiv uv u)) num.variances num.values i
        QF.nan QF.nan QF.nan h3 h1,
      getD_zipWith (fun dv d => QF.sq (zdiv dv d)) den.variances den.values i
        QF.nan QF.nan QF.nan h4 h2]
  rw [lhs, rhs]
  simp only [zdiv_eq_div _ hd, zdiv_eq_div _ hu]

/-- Witness for `ratioHist_variances_match_spec` on one-bin histograms with
nonzero values. -/
theorem ratioHist_variances_match_spec_witness :
    (ratioHist ⟨[QF.fin 1], [QF.fin 0], []⟩ ⟨[QF.fin 2], [QF.fin 0], []⟩).variances.getD 0
        NF.nan =
      (specRatioVariances ⟨[QF.fin 1], [QF.fin 0], []⟩
        ⟨[QF.fin 2], [QF.fin 0], []⟩).getD 0 NF.nan :=
  ratioHist_variances_match_spec ⟨[QF.fin 1], [QF.fin 0], []⟩ ⟨[QF.fin 2], [QF.fin 0], []⟩ 0
    (by decide) (by decide) (by decide) (by decide) (by decide) (by decide)

/-- Counterexample to C4 as stated: with numerator bin value 0 the relative
uncertainty of the numerator divides by zero; the code's variance is NaN while
the spec's treat-as-zero convention gives 0. -/
theorem ratioHist_variance_div_zero_differs_from_spec :
    (ratioHist ⟨[QF.fin 0], [QF.fin 1], []⟩ ⟨[QF.fin 1], [QF.fin 1], []⟩).variances
      = [NF.nan] ∧
    specRatioVariances ⟨[QF.fin 0], [QF.fin 1], []⟩ ⟨[QF.fin 1], [QF.fin 1], []⟩
      = [NF.fin 0] ∧
    NF.nan ≠ NF.fin 0 := by
  refine ⟨?_, ?_, by simp⟩
  · norm_num [ratioHist, QF.div, QF.abs, QF.sq, QF.mul, QF.add, mulSqrt, mkRt]
  · norm_num [specRatioVariances, zdiv, QF.div, QF.abs, QF.sq, QF.mul, QF.add, mulSqrt, mkRt]

end TrackingValidation
